import Mathlib

/-!
Verification of the log store in `src/utility/logger.js`.

The embedding models JS strings as `List Char` (`Str`), the backing file as
`Option Str` (`none` = file absent), and the promise-chain serialized queue as
sequential execution of a task list (`runQueue`).  JS `Date` epoch conversion
(`new Date(y, mIdx, d, h, mi, s, ms).getTime()`) is timezone dependent, so it is
modelled as an abstract function `Env.dateMillis`; `Date.now()` is `Env.now`.
The two regexes of the logger are embedded as backtracking parsers over
`List Char` with the same alternative ordering (greedy quantifiers first) as a
JS regex engine; the configured delimiters are modelled as single characters
matched literally (the defaults '/' and ':' are not regex metacharacters).
-/

namespace Logger

/-- JS strings, modelled as lists of characters. -/
abbrev Str := List Char

/-- The character for decimal digit `d` (for `d ≤ 9`). -/
def dchar (d : Nat) : Char := Char.ofNat (48 + d)

/-- Fuel-indexed decimal conversion (structural recursion so the kernel can
evaluate it). -/
def toDecAux : Nat → Nat → Str
  | 0, _ => []
  | fuel + 1, n => if n < 10 then [dchar n] else toDecAux fuel (n / 10) ++ [dchar (n % 10)]

/-- Decimal string of a natural number, as JS template-literal interpolation
`s!{n}` produces for a nonnegative integer. -/
def toDec (n : Nat) : Str := toDecAux (n + 1) n

/-- Zero padding to two digits as in `if (x < 10) x = "0" + x` (`#format`,
logger.js lines 43-47). -/
def pad2 (n : Nat) : Str := if n < 10 then '0' :: toDec n else toDec n

/-- Split on a newline: accumulator-based embedding of JS
`data.split("\n")` (single-character separator). -/
def splitNlAux : List Char → List Char → List Str
  | [], acc => [acc.reverse]
  | c :: cs, acc => if c = '\n' then acc.reverse :: splitNlAux cs [] else splitNlAux cs (c :: acc)

def splitNl (s : Str) : List Str := splitNlAux s []

/-- JS `array.join("\n")`. -/
def joinNl : List Str → Str
  | [] => []
  | [x] => x
  | x :: y :: xs => x ++ '\n' :: joinNl (y :: xs)

/-- JS `String.prototype.startsWith` on char lists (used to define `hasSub`). -/
def startsWithStr : Str → Str → Bool
  | [], _ => true
  | _ :: _, [] => false
  | p :: ps, c :: cs => p = c && startsWithStr ps cs

/-- JS `hay.includes(needle)` (substring containment). -/
def hasSub (hay needle : Str) : Bool :=
  match hay with
  | [] => needle.isEmpty
  | _ :: rest => startsWithStr needle hay || hasSub rest needle

/-- `#getLogData`'s post-processing (logger.js line 180):
`data.split("\n").flatMap(x => x ? [x] : [])` — split on newlines and drop
empty (falsy) segments. -/
def splitEntries (s : Str) : List Str :=
  (splitNl s).flatMap (fun x => if x.isEmpty then [] else [x])

/-- JS `Date` object as seen through the getters `#format` uses.
`monthIndex` is `getMonth()` (0-based); the code renders `getMonth() + 1`. -/
structure JsDate where
  year : Nat
  monthIndex : Nat
  day : Nat
  hours : Nat
  minutes : Nat
  seconds : Nat
  ms : Nat
deriving DecidableEq, Repr

/-- The single formatted entry line produced by `#format` (logger.js line 49),
without the surrounding newlines.  The date and time separators are the
literal characters '/' and ':' hard-coded in the template string — the
configured delimiters are NOT consulted there. -/
def entryLine (message : Str) (d : JsDate) : Str :=
  '[' :: (pad2 d.day ++ '/' :: (pad2 (d.monthIndex + 1) ++ '/' :: (toDec d.year ++
    ' ' :: (pad2 d.hours ++ ':' :: (pad2 d.minutes ++ ':' :: (pad2 d.seconds ++
    '.' :: (toDec d.ms ++ ']' :: ' ' :: '-' :: ' ' :: message)))))))

/-- `Logger.#format(message, dateObj)`: `"\n[... ] - message\n"`. -/
def format (message : Str) (d : JsDate) : Str :=
  '\n' :: entryLine message d ++ ['\n']

/-- Modelled from the spec (section 4.2 Entry Formatter): the formatted line
`"\n[{day}{dateDelim}{month}{dateDelim}{year} {hour}{timeDelim}{minute}{timeDelim}{second}.{millisecond}] - {message}\n"`
using the store's CONFIGURED delimiters, zero-padded fields and unpadded
millisecond.  This is the spec-side counterpart of `format` for comparison. -/
def specFormatLine (dd td : Char) (message : Str) (d : JsDate) : Str :=
  '\n' :: '[' :: (pad2 d.day ++ dd :: (pad2 (d.monthIndex + 1) ++ dd :: (toDec d.year ++
    ' ' :: (pad2 d.hours ++ td :: (pad2 d.minutes ++ td :: (pad2 d.seconds ++
    '.' :: (toDec d.ms ++ ']' :: ' ' :: '-' :: ' ' :: message))))))) ++ ['\n']

/-- One appended block as it lands in the file: newline, entry line, newline. -/
def blockOf (line : Str) : Str := '\n' :: line ++ ['\n']

/-- The text `clean_up` writes back (logger.js lines 103-106):
`filtered.flatMap(x => ["", x])`, then `push("")`, then `join("\n")`. -/
def rejoin (ls : List Str) : Str :=
  joinNl (ls.flatMap (fun x => [[], x]) ++ [[]])

/-! ### Embedding of the two regexes

A JS regex anchored with `^` either matches at position 0 or not at all.  We
embed the two patterns of logger.js (lines 34-35) as backtracking parsers: a
parser returns the list of all (result, remaining-input) pairs in the order a
backtracking regex engine would find them — greedy quantifier alternatives
first — so `.head?` is the match the engine reports. -/
/-- Backtracking parser: all parses in engine priority order. -/
def RParse (α : Type) : Type := List Char → List (α × List Char)

def rpure (a : α) : RParse α := fun cs => [(a, cs)]

def rbind (p : RParse α) (f : α → RParse β) : RParse β :=
  fun cs => (p cs).flatMap (fun r => f r.1 r.2)

def rmap (f : α → β) (p : RParse α) : RParse β :=
  rbind p (fun a => rpure (f a))

/-- Ordered choice: results of the first alternative have priority. -/
def ralt (p q : RParse α) : RParse α := fun cs => p cs ++ q cs

/-- Match one character satisfying a predicate. -/
def rsat (pr : Char → Bool) : RParse Char := fun cs =>
  match cs with
  | [] => []
  | c :: rest => if pr c then [(c, rest)] else []

/-- `\d`, yielding its numeric value. -/
def rdigit : RParse Nat := fun cs =>
  match cs with
  | [] => []
  | c :: rest => if c.isDigit then [(c.toNat - 48, rest)] else []

/-- `.` — any character (the unescaped dot in both patterns). -/
def rany : RParse Char := fun cs =>
  match cs with
  | [] => []
  | c :: rest => [(c, rest)]

/-- A literal character (the embedded delimiters are assumed to be single
non-metacharacter characters, true of the defaults '/' and ':'). -/
def rchar (c : Char) : RParse Char := rsat (fun x => x = c)

/-- `p?` — greedy: try `p` first, then the empty match. -/
def ropt (p : RParse α) : RParse (Option α) :=
  ralt (rmap some p) (rpure none)

/-- `\d{2}` as the greedy first alternative of `\d{1,2}`. -/
def rnum2 : RParse Nat :=
  rbind rdigit (fun a => rmap (fun b => a * 10 + b) rdigit)

/-- `\d{1,2}`, greedy. -/
def rD12 : RParse Nat := ralt rnum2 rdigit

/-- `\d{3}`. -/
def rnum3 : RParse Nat :=
  rbind rdigit (fun a => rbind rdigit (fun b => rmap (fun c => (a * 10 + b) * 10 + c) rdigit))

/-- `\d{1,3}`, greedy. -/
def rD13 : RParse Nat := ralt rnum3 (ralt rnum2 rdigit)

/-- `\d{4}`. -/
def rnum4 : RParse Nat :=
  rbind rdigit (fun a => rbind rdigit (fun b => rbind rdigit (fun c =>
    rmap (fun d => ((a * 10 + b) * 10 + c) * 10 + d) rdigit)))

/-- JS `\s` on the characters our model handles (ASCII whitespace). -/
def jsSpace (c : Char) : Bool :=
  c = ' ' || c = '\t' || c = '\n' || c = '\r' || c = '\x0b' || c = '\x0c'

/-- `\s?`, greedy. -/
def rspaceQ : RParse (Option Char) := ropt (rsat jsSpace)

/-- The capture groups of `#date_cleanUp_regex`:
`^\[?(\d{1,2})D(\d{1,2})D(\d{4})\s?(?:(\d{1,2})T(\d{1,2})T(\d{1,2}).(\d{1,3}))?`
(D = escaped date delimiter, T = time delimiter, `.` is an unescaped any-char). -/
structure Captures where
  day : Nat
  month : Nat
  year : Nat
  time : Option (Nat × Nat × Nat × Nat)
deriving DecidableEq, Repr

/-- The optional time group of the clean-up regex. -/
def rTimeGroup (td : Char) : RParse (Nat × Nat × Nat × Nat) :=
  rbind rD12 (fun h => rbind (rchar td) (fun _ =>
    rbind rD12 (fun mi => rbind (rchar td) (fun _ =>
      rbind rD12 (fun s => rbind rany (fun _ =>
        rmap (fun ms => (h, mi, s, ms)) rD13))))))

/-- `Logger.#date_cleanUp_regex` (logger.js line 35) as a parser. -/
def cleanupPattern (dd td : Char) : RParse Captures :=
  rbind (ropt (rchar '[')) (fun _ =>
    rbind rD12 (fun day => rbind (rchar dd) (fun _ =>
      rbind rD12 (fun mon => rbind (rchar dd) (fun _ =>
        rbind rnum4 (fun year =>
          rbind rspaceQ (fun _ =>
            rmap (fun t => Captures.mk day mon year t) (ropt (rTimeGroup td)))))))))

/-- `log.match(#date_cleanUp_regex)`: the first match's captures, or `none`. -/
def matchCleanUp (dd td : Char) (s : Str) : Option Captures :=
  (cleanupPattern dd td s).head?.map (fun r => r.1)

/-- `Logger.#date_regex` (logger.js line 34) as a parser (no captures):
`^\[?\d{1,2}D\d{1,2}D\d{4}\s?(?:\d{1,2}T\d{1,2}T\d{1,2}.\d{1,3})?`.
Note there is no `$` anchor: the regex only constrains a prefix. -/
def validPattern (dd td : Char) : RParse Unit :=
  rbind (ropt (rchar '[')) (fun _ =>
    rbind rD12 (fun _ => rbind (rchar dd) (fun _ =>
      rbind rD12 (fun _ => rbind (rchar dd) (fun _ =>
        rbind rnum4 (fun _ =>
          rbind rspaceQ (fun _ =>
            rmap (fun _ => ()) (ropt (rTimeGroup td)))))))))

/-- `#date_regex.test(s)`: whether the anchored pattern matches. -/
def dateRegexTest (dd td : Char) (s : Str) : Bool :=
  !(validPattern dd td s).isEmpty

/-- Modelled from the spec (section 4.4): the date filter "MUST match the
pattern `DD<dateDelim>MM<dateDelim>YYYY[ HH<timeDelim>MM<timeDelim>SS.mmm]`
(time portion optional)", read as the whole string conforming to the
pattern (day/month 1-2 digits, 4-digit year, literal space before the
optional time, millisecond 1-3 digits, nothing else).  Spec-side definition
used to compare the spec's wording with `dateRegexTest`. -/
def specDatePattern (dd td : Char) : RParse Unit :=
  rbind rD12 (fun _ => rbind (rchar dd) (fun _ =>
    rbind rD12 (fun _ => rbind (rchar dd) (fun _ =>
      rbind rnum4 (fun _ =>
        rmap (fun _ => ()) (ropt (rbind (rchar ' ') (fun _ => rTimeGroup td))))))))

/-- Whether a string fully conforms to the spec's date-filter pattern. -/
def specDateConforms (dd td : Char) (s : Str) : Bool :=
  (specDatePattern dd td s).any (fun r => r.2.isEmpty)

/-! ### First-match reasoning for the parsers

`FirstParse p cs a rest` says the highest-priority parse of `cs` by `p`
yields `a` leaving `rest` — i.e. the match a backtracking engine reports. -/
def FirstParse (p : RParse α) (cs : Str) (a : α) (rest : Str) : Prop :=
  ∃ t, p cs = (a, rest) :: t

/-! ### The Logger state machine

The promise chain `#promise_chain` executes one handler at a time in
submission order, so the queue is modelled as a list of tasks executed
sequentially against the backing file (`Option Str`, `none` = absent). -/
/-- The constructor `flag` argument: 'a', 'ax', 'w' or 'wx'. -/
inductive Flag
  | a
  | ax
  | w
  | wx
deriving DecidableEq, Repr

/-- Environment: `Date.now()` and the JS `new Date(y, monthIndex, d, h, mi,
s, ms).getTime()` conversion, which is local-timezone dependent and therefore
kept abstract (arguments in the order the code passes them). -/
structure Env where
  now : Int
  dateMillis : Int → Int → Int → Int → Int → Int → Int → Int

/-- Errors the model can surface.  `splitTypeError` is what `#getLogData`
actually raises when the read fails: the rejection is caught, the `Error`
object becomes `data`, and `data.split("\n")` throws a TypeError
(logger.js lines 179-180).  `fileExists` models EEXIST for the exclusive
flags; `logWrapped` is the re-thrown `new Error("Error in log1: " + err)`
(line 60); `cleanupWrapped` the re-thrown error of line 107. -/
inductive JsError
  | fileExists
  | splitTypeError
  | logWrapped (e : JsError)
  | cleanupWrapped (e : JsError)
deriving DecidableEq, Repr

/-- A queued handler invocation: `#handler("log"|"get_logs"|"clean_up", …)`.
For `log` the line is already formatted at submission time (logger.js
lines 119-123 run `#format` before chaining).  The `get_logs` callback is
not modelled: it is invoked with exactly the value the promise resolves
with (double delivery), so the resolved value captures it. -/
inductive Task
  | log (line : Str)
  | getLogs (date : Option Str) (content : Option Str)
  | cleanUp
deriving DecidableEq, Repr

/-- What the chained `.then(… .catch(err => err))` step resolves with:
`done` for an undefined-returning handler, `logs` for a `get_logs` result,
`err` for a captured error (resolved, not rejected). -/
inductive TaskOutput
  | done
  | logs (ls : List Str)
  | err (e : JsError)
deriving DecidableEq, Repr

/-- Store configuration fixed at construction. -/
structure LoggerCfg where
  flag : Flag
  maxAge : Nat
  dd : Char
  td : Char
  autoFormat : Bool
deriving DecidableEq, Repr

/-- `fs.promises.writeFile(path, txt, {flag})` against a file that is either
absent (`none`) or has the given contents.  Modelled failures: EEXIST for the
exclusive flags on an existing file.  'a' appends (creating if absent), 'w'
truncates/creates. -/
def writeFileM (fl : Flag) (file : Option Str) (txt : Str) : Except JsError (Option Str) :=
  match fl with
  | Flag.a => Except.ok (some (file.getD [] ++ txt))
  | Flag.ax =>
    match file with
    | none => Except.ok (some txt)
    | some _ => Except.error JsError.fileExists
  | Flag.w => Except.ok (some txt)
  | Flag.wx =>
    match file with
    | none => Except.ok (some txt)
    | some _ => Except.error JsError.fileExists

/-- `Logger.#getLogData()`: read the file, split into nonempty lines.  When
the file is absent the caught read error is an `Error` object and
`data.split` throws a TypeError (see `JsError.splitTypeError`). -/
def getLogData (file : Option Str) : Except JsError (List Str) :=
  match file with
  | none => Except.error JsError.splitTypeError
  | some s => Except.ok (splitEntries s)

/-- JS truthiness of the `date`/`content` arguments (null or "" are falsy). -/
def optTruthy : Option Str → Bool
  | none => false
  | some s => !s.isEmpty

/-- The filter callback of the `get_logs` handler (logger.js lines 73-81),
with `event_param` always an object there, so the `!event_param` test is
never taken. -/
def queryKeep (content date : Option Str) (log : Str) : Bool :=
  if log.isEmpty then false
  else if !optTruthy content && !optTruthy date then true
  else if optTruthy content && hasSub log (content.getD []) then true
  else if optTruthy date && hasSub log (date.getD []) then true
  else false

/-- The `get_logs` handler core (logger.js lines 63-86): all logs when no
filter is truthy, else the filtered logs. -/
def getLogsCore (content date : Option Str) (logs : List Str) : List Str :=
  if !optTruthy content && !optTruthy date then logs
  else logs.filter (queryKeep content date)

/-- `new Date(ma[3], ma[2] - 1, ma[1], ma[4]||0, ma[5]||0, ma[6]||0,
ma[7]||0).getTime()` — capture groups 4-7 default to 0 when the optional
time group did not participate (a captured group is a nonempty digit string,
hence truthy). -/
def capsMillis (env : Env) (c : Captures) : Int :=
  match c.time with
  | none => env.dateMillis c.year ((c.month : Int) - 1) c.day 0 0 0 0
  | some (h, mi, s, ms) => env.dateMillis c.year ((c.month : Int) - 1) c.day h mi s ms

/-- The filter callback of the `clean_up` handler (logger.js lines 91-101):
drop falsy entries, drop entries whose timestamp does not match the clean-up
regex, then drop entries strictly older than `log_max_age` seconds. -/
def keepLog (env : Env) (maxAge : Nat) (dd td : Char) (log : Str) : Bool :=
  if log.isEmpty then false
  else
    match matchCleanUp dd td log with
    | none => false
    | some caps =>
      let age := env.now - capsMillis env caps
      if age > (maxAge : Int) * 1000 then false else true

/-- The entries `clean_up` retains, in order. -/
def cleanedEntries (env : Env) (maxAge : Nat) (dd td : Char) (s : Str) : List Str :=
  (splitEntries s).filter (keepLog env maxAge dd td)

/-- Execute one queued handler against the file, producing the new file state
and the value the chain step resolves with (`.catch(err => err)` turns any
handler error into a resolved value). -/
def runTask (env : Env) (cfg : LoggerCfg) (file : Option Str) : Task → Option Str × TaskOutput
  | Task.log line =>
    match writeFileM cfg.flag file line with
    | Except.ok f2 => (f2, TaskOutput.done)
    | Except.error e => (file, TaskOutput.err (JsError.logWrapped e))
  | Task.getLogs date content =>
    match getLogData file with
    | Except.error e => (file, TaskOutput.err e)
    | Except.ok logs => (file, TaskOutput.logs (getLogsCore content date logs))
  | Task.cleanUp =>
    match getLogData file with
    | Except.error e => (file, TaskOutput.err e)
    | Except.ok logs =>
      match writeFileM Flag.w file (rejoin (logs.filter (keepLog env cfg.maxAge cfg.dd cfg.td))) with
      | Except.ok f2 => (f2, TaskOutput.done)
      | Except.error e => (file, TaskOutput.err (JsError.cleanupWrapped e))

/-- Drain a queue of tasks in submission order (the promise chain). -/
def runQueue (env : Env) (cfg : LoggerCfg) : Option Str → List Task → Option Str × List TaskOutput
  | file, [] => (file, [])
  | file, t :: ts =>
    let r := runTask env cfg file t
    let rest := runQueue env cfg r.1 ts
    (rest.1, r.2 :: rest.2)

/-- `Logger.log(text, format)` at submission time (logger.js lines 119-124):
format now (with the current `new Date()`) when `#auto_format || format`,
then chain an append task. -/
def logSubmit (autoFormat : Bool) (fmt : Bool) (text : Str) (d : JsDate) : Task :=
  Task.log (if autoFormat || fmt then format text d else text)

/-- The append tasks for a list of (message, submission date) pairs. -/
def logTasks (cfg : LoggerCfg) (ps : List (Str × JsDate)) : List Task :=
  ps.map (fun p => logSubmit cfg.autoFormat false p.1 p.2)

/-- The synchronous rejection of `getLogs` (logger.js lines 159-165). -/
inductive Rejection
  | invalidDate (d : Str)
deriving DecidableEq, Repr

/-- `Logger.getLogs(cb, date, content)` submission (lines 158-168): reject
synchronously when a truthy `date` fails `#date_regex.test` — leaving the
chain untouched — otherwise chain a query task. -/
def getLogsSubmit (cfg : LoggerCfg) (chain : List Task) (date content : Option Str) :
    List Task × Option Rejection :=
  if optTruthy date && !dateRegexTest cfg.dd cfg.td (date.getD []) then
    (chain, some (Rejection.invalidDate (date.getD [])))
  else
    (chain ++ [Task.getLogs date content], none)

/-- The outcome of the promise `getLogs` returns. -/
inductive PromiseOutcome
  | resolved (o : TaskOutput)
  | rejected (r : Rejection)
deriving DecidableEq, Repr

/-- The settled value of the promise returned by `getLogs`: a rejection only
on date validation, otherwise the resolved value of the chained
`#handler("get_logs", …).catch(err => err)` step. -/
def getLogsOutcome (env : Env) (cfg : LoggerCfg) (file : Option Str)
    (date content : Option Str) : PromiseOutcome :=
  if optTruthy date && !dateRegexTest cfg.dd cfg.td (date.getD []) then
    PromiseOutcome.rejected (Rejection.invalidDate (date.getD []))
  else
    PromiseOutcome.resolved (runTask env cfg file (Task.getLogs date content)).2

/-- Concrete environment for witnesses: the abstract `Date` conversion is
instantiated with hour/minute/second-of-day milliseconds; `now` is 300 s. -/
def demoEnv : Env :=
  Env.mk 300000 (fun _ _ _ h mi s _ => 1000 * (s + 60 * mi + 3600 * h))

/-- Concrete submission date for witnesses (05/10/2026 12:30:45.678). -/
def demoDate : JsDate := JsDate.mk 2026 9 5 12 30 45 678

/-- A logger with all-default construction options. -/
def defaultCfg : LoggerCfg := LoggerCfg.mk Flag.a 7776000 '/' ':' true

/-- Default options except `auto_format = false`. -/
def cfgNoFormat : LoggerCfg := LoggerCfg.mk Flag.a 7776000 '/' ':' false

/-- Default options except `date_delimiter = '-'` and a huge retention. -/
def cfgDash : LoggerCfg := LoggerCfg.mk Flag.a 1000000000 '-' ':' true

/-- Default options except flag 'ax' (exclusive append). -/
def cfgAx : LoggerCfg := LoggerCfg.mk Flag.ax 7776000 '/' ':' true

/-- The backing file used by the compaction witnesses: three formatted
entries aged 200 s, 100 s and 0 s relative to `demoEnv.now`. -/
def witnessFile : Str :=
  ("\n[01/01/2026 00:01:40.0] - old\n\n[01/01/2026 00:03:20.0] - mid\n\n[01/01/2026 00:05:00.0] - new\n").data

/-! ### Theorems -/

theorem toDecAux_congr (f1 : Nat) : ∀ f2 n, n < f1 → n < f2 → toDecAux f1 n = toDecAux f2 n := by
  induction f1 with
  | zero => intro f2 n h1 _; omega
  | succ f ih =>
    intro f2 n h1 h2
    cases f2 with
    | zero => omega
    | succ g =>
      simp only [toDecAux]
      by_cases hn : n < 10
      · simp [hn]
      · have hdiv : n / 10 < n := Nat.div_lt_self (by omega) (by omega)
        rw [if_neg hn, if_neg hn, ih f (n / 10) (by omega) (by omega),
          ih g (n / 10) (by omega) (by omega)]

theorem toDec_lt (n : Nat) (h : n < 10) : toDec n = [dchar n] := by
  show toDecAux (n + 1) n = [dchar n]
  simp only [toDecAux]
  rw [if_pos h]

theorem toDec_ge (n : Nat) (h : 10 ≤ n) : toDec n = toDec (n / 10) ++ [dchar (n % 10)] := by
  have hlt : n / 10 < n := Nat.div_lt_self (by omega) (by omega)
  show toDecAux (n + 1) n = toDec (n / 10) ++ [dchar (n % 10)]
  conv_lhs => rw [toDecAux]
  rw [if_neg (by omega : ¬ n < 10)]
  rw [toDecAux_congr n (n / 10 + 1) (n / 10) (by omega) (by omega)]
  rfl

theorem toDec_two (n : Nat) (h1 : 10 ≤ n) (h2 : n ≤ 99) :
    toDec n = [dchar (n / 10), dchar (n % 10)] := by
  rw [toDec_ge n h1, toDec_lt (n / 10) (by omega)]
  rfl

theorem toDec_three (n : Nat) (h1 : 100 ≤ n) (h2 : n ≤ 999) :
    toDec n = [dchar (n / 100), dchar (n / 10 % 10), dchar (n % 10)] := by
  rw [toDec_ge n (by omega), toDec_two (n / 10) (by omega) (by omega)]
  have e1 : n / 10 / 10 = n / 100 := by omega
  have e2 : n / 10 % 10 = n / 10 % 10 := rfl
  rw [e1]
  rfl

theorem toDec_four (n : Nat) (h1 : 1000 ≤ n) (h2 : n ≤ 9999) :
    toDec n = [dchar (n / 1000), dchar (n / 100 % 10), dchar (n / 10 % 10), dchar (n % 10)] := by
  rw [toDec_ge n (by omega), toDec_three (n / 10) (by omega) (by omega)]
  have e1 : n / 10 / 100 = n / 1000 := by omega
  have e2 : n / 10 / 10 % 10 = n / 100 % 10 := by omega
  have e3 : n / 10 % 10 = n / 10 % 10 := rfl
  rw [e1, e2]
  rfl

theorem dchar_isDigit (d : Nat) (h : d ≤ 9) : (dchar d).isDigit = true := by
  interval_cases d <;> decide

theorem dchar_toNat (d : Nat) (h : d ≤ 9) : (dchar d).toNat = 48 + d := by
  interval_cases d <;> decide

theorem isDigit_ne_nl (c : Char) (h : c.isDigit = true) : c ≠ '\n' := by
  intro he; subst he; revert h; decide

theorem toDec_all_digit (n : Nat) : ∀ c ∈ toDec n, c.isDigit = true := by
  induction n using Nat.strong_induction_on with
  | _ n ih =>
    by_cases h : n < 10
    · rw [toDec_lt n h]
      intro c hc
      simp only [List.mem_singleton] at hc
      subst hc
      exact dchar_isDigit n (by omega)
    · rw [toDec_ge n (by omega)]
      intro c hc
      rcases List.mem_append.mp hc with h1 | h2
      · have hdiv : n / 10 < n := Nat.div_lt_self (by omega) (by omega)
        exact ih (n / 10) hdiv c h1
      · simp only [List.mem_singleton] at h2
        subst h2
        exact dchar_isDigit _ (by omega)

theorem pad2_all_digit (n : Nat) : ∀ c ∈ pad2 n, c.isDigit = true := by
  intro c hc
  unfold pad2 at hc
  by_cases h : n < 10
  · rw [if_pos h] at hc
    rcases List.mem_cons.mp hc with h1 | h2
    · subst h1; decide
    · exact toDec_all_digit n c h2
  · rw [if_neg h] at hc
    exact toDec_all_digit n c hc

theorem pad2_eq_lt (n : Nat) (h : n < 10) : pad2 n = ['0', dchar n] := by
  unfold pad2
  rw [if_pos h, toDec_lt n h]

theorem pad2_eq_ge (n : Nat) (h1 : 10 ≤ n) (h2 : n ≤ 99) :
    pad2 n = [dchar (n / 10), dchar (n % 10)] := by
  unfold pad2
  rw [if_neg (by omega : ¬ n < 10), toDec_two n h1 h2]

theorem format_eq_block (message : Str) (d : JsDate) :
    format message d = blockOf (entryLine message d) := rfl

theorem entryLine_ne_nil (message : Str) (d : JsDate) : entryLine message d ≠ [] := by
  unfold entryLine
  exact List.cons_ne_nil _ _

theorem notMemCons {c x : Char} {l : Str} (h1 : c ≠ x) (h2 : c ∉ l) : c ∉ x :: l := by
  intro h
  rcases List.mem_cons.mp h with h | h
  · exact h1 h
  · exact h2 h

theorem notMemApp {c : Char} {a b : Str} (h1 : c ∉ a) (h2 : c ∉ b) : c ∉ a ++ b := by
  intro h
  rcases List.mem_append.mp h with h | h
  · exact h1 h
  · exact h2 h

theorem entryLine_no_nl (message : Str) (d : JsDate) (hm : '\n' ∉ message) :
    '\n' ∉ entryLine message d := by
  have hdig : ∀ n : Nat, '\n' ∉ pad2 n := fun n h =>
    isDigit_ne_nl '\n' (pad2_all_digit n '\n' h) rfl
  have hdig2 : ∀ n : Nat, '\n' ∉ toDec n := fun n h =>
    isDigit_ne_nl '\n' (toDec_all_digit n '\n' h) rfl
  unfold entryLine
  refine notMemCons (by decide) ?_
  refine notMemApp (hdig _) ?_
  refine notMemCons (by decide) ?_
  refine notMemApp (hdig _) ?_
  refine notMemCons (by decide) ?_
  refine notMemApp (hdig2 _) ?_
  refine notMemCons (by decide) ?_
  refine notMemApp (hdig _) ?_
  refine notMemCons (by decide) ?_
  refine notMemApp (hdig _) ?_
  refine notMemCons (by decide) ?_
  refine notMemApp (hdig _) ?_
  refine notMemCons (by decide) ?_
  refine notMemApp (hdig2 _) ?_
  refine notMemCons (by decide) ?_
  refine notMemCons (by decide) ?_
  refine notMemCons (by decide) ?_
  refine notMemCons (by decide) ?_
  exact hm

theorem splitNlAux_no_nl (cs : List Char) :
    ∀ acc, ('\n' ∉ acc) → ∀ seg ∈ splitNlAux cs acc, '\n' ∉ seg := by
  induction cs with
  | nil =>
    intro acc hacc seg hseg
    simp only [splitNlAux, List.mem_singleton] at hseg
    subst hseg
    simpa using hacc
  | cons c cs ih =>
    intro acc hacc seg hseg
    simp only [splitNlAux] at hseg
    by_cases hc : c = '\n'
    · rw [if_pos hc] at hseg
      rcases List.mem_cons.mp hseg with h | h
      · subst h; simpa using hacc
      · exact ih [] (by simp) seg h
    · rw [if_neg hc] at hseg
      refine ih (c :: acc) ?_ seg hseg
      intro hmem
      rcases List.mem_cons.mp hmem with h | h
      · exact hc h.symm
      · exact hacc h

theorem splitEntries_no_nl (s : Str) : ∀ e ∈ splitEntries s, e ≠ [] ∧ '\n' ∉ e := by
  intro e he
  simp only [splitEntries, List.mem_flatMap] at he
  obtain ⟨seg, hseg, hmem⟩ := he
  by_cases hemp : seg.isEmpty
  · rw [if_pos hemp] at hmem
    simp at hmem
  · rw [if_neg hemp] at hmem
    simp only [List.mem_singleton] at hmem
    subst hmem
    refine ⟨by simpa using hemp, ?_⟩
    exact splitNlAux_no_nl s [] (by simp) e hseg

/-- Splitting stops at the first newline: the head segment is the newline-free
prefix. -/
theorem splitNlAux_append_nl (xs : List Char) :
    ∀ acc ys, ('\n' ∉ xs) →
      splitNlAux (xs ++ '\n' :: ys) acc = (acc.reverse ++ xs) :: splitNlAux ys [] := by
  induction xs with
  | nil =>
    intro acc ys _
    simp [splitNlAux]
  | cons x xs ih =>
    intro acc ys hx
    have hxne : x ≠ '\n' := by
      intro h; exact hx (by simp [h])
    simp only [List.cons_append, splitNlAux, if_neg hxne, List.append_eq]
    rw [ih (x :: acc) ys (by intro h; exact hx (List.mem_cons_of_mem x h))]
    simp

theorem splitNlAux_no_nl_gen (xs : List Char) :
    ∀ acc, ('\n' ∉ xs) → splitNlAux xs acc = [acc.reverse ++ xs] := by
  induction xs with
  | nil => intro acc _; simp [splitNlAux]
  | cons x xs ih =>
    intro acc hx
    have hxne : x ≠ '\n' := by
      intro h; exact hx (by simp [h])
    simp only [splitNlAux, if_neg hxne]
    rw [ih (x :: acc) (fun hm => hx (List.mem_cons_of_mem x hm))]
    simp

theorem splitNlAux_no_nl_eq (xs : List Char) (h : '\n' ∉ xs) :
    splitNlAux xs [] = [xs] := by
  rw [splitNlAux_no_nl_gen xs [] h]
  simp

theorem splitEntries_flatten_blocks :
    ∀ lines : List Str, (∀ L ∈ lines, L ≠ [] ∧ '\n' ∉ L) →
      splitEntries ((lines.map blockOf).flatten) = lines := by
  intro lines
  induction lines with
  | nil => intro _; rfl
  | cons L ls ih =>
    intro h
    have hL := h L (List.mem_cons_self L ls)
    have hls : ∀ M ∈ ls, M ≠ [] ∧ '\n' ∉ M := fun M hm => h M (List.mem_cons_of_mem L hm)
    rw [List.map_cons, List.flatten_cons]
    have hshape : blockOf L ++ (List.map blockOf ls).flatten
        = '\n' :: (L ++ '\n' :: (List.map blockOf ls).flatten) := by
      simp [blockOf]
    rw [hshape]
    unfold splitEntries splitNl
    have hstep : splitNlAux ('\n' :: (L ++ '\n' :: (List.map blockOf ls).flatten)) []
        = [] :: splitNlAux (L ++ '\n' :: (List.map blockOf ls).flatten) [] := by
      simp [splitNlAux]
    rw [hstep, splitNlAux_append_nl L [] _ hL.2]
    simp only [List.reverse_nil, List.nil_append, List.flatMap_cons]
    have h1 : (if ([] : Str).isEmpty then ([] : List Str) else [[]]) = [] := by decide
    have h2 : (if L.isEmpty then ([] : List Str) else [L]) = [L] := by
      rw [if_neg (by simpa using hL.1)]
    rw [h1, h2]
    have := ih hls
    unfold splitEntries splitNl at this
    rw [this]
    rfl

/-- `joinNl` on a cons with nonempty tail. -/
theorem joinNl_cons_ne (x : Str) (ys : List Str) (h : ys ≠ []) :
    joinNl (x :: ys) = x ++ '\n' :: joinNl ys := by
  cases ys with
  | nil => exact absurd rfl h
  | cons y ys => rfl

/-- The rejoined text is exactly the concatenation of the blocks the entries
would have produced when appended: compaction preserves the blank-line
formatting. -/
theorem rejoin_eq_blocks (ls : List Str) : rejoin ls = (ls.map blockOf).flatten := by
  induction ls with
  | nil => rfl
  | cons L rest ih =>
    unfold rejoin
    rw [List.flatMap_cons]
    have hshape : ([[], L] : List Str) ++ rest.flatMap (fun x => [[], x]) ++ [[]]
        = [] :: L :: (rest.flatMap (fun x => [[], x]) ++ [[]]) := by
      simp
    rw [hshape]
    rw [joinNl_cons_ne [] (L :: (rest.flatMap (fun x => [[], x]) ++ [[]])) (by simp)]
    rw [joinNl_cons_ne L (rest.flatMap (fun x => [[], x]) ++ [[]]) (by simp)]
    unfold rejoin at ih
    rw [ih]
    simp [blockOf]

theorem splitEntries_rejoin (ls : List Str) (h : ∀ L ∈ ls, L ≠ [] ∧ '\n' ∉ L) :
    splitEntries (rejoin ls) = ls := by
  rw [rejoin_eq_blocks]
  exact splitEntries_flatten_blocks ls h

theorem filter_idem (p : α → Bool) (l : List α) : (l.filter p).filter p = l.filter p := by
  induction l with
  | nil => rfl
  | cons a l ih =>
    by_cases h : p a = true
    · simp [List.filter_cons, h, ih]
    · simp [List.filter_cons, h, ih]

theorem fp_pure (a : α) (cs : Str) : FirstParse (rpure a) cs a cs := ⟨[], rfl⟩

theorem fp_bind {p : RParse α} {f : α → RParse β} {cs cs1 cs2 : Str} {a : α} {b : β}
    (hp : FirstParse p cs a cs1) (hf : FirstParse (f a) cs1 b cs2) :
    FirstParse (rbind p f) cs b cs2 := by
  obtain ⟨t, ht⟩ := hp
  obtain ⟨u, hu⟩ := hf
  refine ⟨u ++ t.flatMap (fun r => f r.1 r.2), ?_⟩
  simp [rbind, ht, hu]

theorem fp_map {p : RParse α} {cs cs1 : Str} {a : α} (f : α → β)
    (hp : FirstParse p cs a cs1) : FirstParse (rmap f p) cs (f a) cs1 :=
  fp_bind hp (fp_pure _ _)

theorem fp_value {p : RParse α} {cs cs1 : Str} {a b : α}
    (hp : FirstParse p cs a cs1) (h : a = b) : FirstParse p cs b cs1 := h ▸ hp

theorem fp_alt_left {p q : RParse α} {cs r : Str} {a : α}
    (hp : FirstParse p cs a r) : FirstParse (ralt p q) cs a r := by
  obtain ⟨t, ht⟩ := hp
  exact ⟨t ++ q cs, by simp [ralt, ht]⟩

theorem fp_alt_right {p q : RParse α} {cs r : Str} {a : α}
    (hp : p cs = []) (hq : FirstParse q cs a r) : FirstParse (ralt p q) cs a r := by
  obtain ⟨t, ht⟩ := hq
  exact ⟨t, by simp [ralt, hp, ht]⟩

theorem fp_sat {pr : Char → Bool} {c : Char} (rest : Str) (h : pr c = true) :
    FirstParse (rsat pr) (c :: rest) c rest := ⟨[], by simp [rsat, h]⟩

theorem fp_char (c : Char) (rest : Str) : FirstParse (rchar c) (c :: rest) c rest :=
  fp_sat rest (by simp [rchar])

theorem fp_digit {c : Char} {v : Nat} (rest : Str) (h : c.isDigit = true)
    (hv : c.toNat - 48 = v) : FirstParse rdigit (c :: rest) v rest :=
  ⟨[], by simp [rdigit, h, hv]⟩

theorem fp_any (c : Char) (rest : Str) : FirstParse rany (c :: rest) c rest := ⟨[], rfl⟩

theorem fp_opt {p : RParse α} {cs r : Str} {a : α}
    (hp : FirstParse p cs a r) : FirstParse (ropt p) cs (some a) r :=
  fp_alt_left (fp_map some hp)

theorem rdigit_digit {c : Char} (rest : Str) (h : c.isDigit = true) :
    rdigit (c :: rest) = [(c.toNat - 48, rest)] := by simp [rdigit, h]

theorem rdigit_nondigit {c : Char} (rest : Str) (h : c.isDigit = false) :
    rdigit (c :: rest) = [] := by simp [rdigit, h]

theorem rnum2_fail2 {c1 c2 : Char} (rest : Str) (h1 : c1.isDigit = true)
    (h2 : c2.isDigit = false) : rnum2 (c1 :: c2 :: rest) = [] := by
  simp [rnum2, rbind, rmap, rpure, rdigit_digit _ h1, rdigit_nondigit _ h2]

theorem rnum3_fail2 {c1 c2 : Char} (rest : Str) (h1 : c1.isDigit = true)
    (h2 : c2.isDigit = false) : rnum3 (c1 :: c2 :: rest) = [] := by
  simp [rnum3, rbind, rmap, rpure, rdigit_digit _ h1, rdigit_nondigit _ h2]

theorem rnum3_fail3 {c1 c2 c3 : Char} (rest : Str) (h1 : c1.isDigit = true)
    (h2 : c2.isDigit = true) (h3 : c3.isDigit = false) :
    rnum3 (c1 :: c2 :: c3 :: rest) = [] := by
  simp [rnum3, rbind, rmap, rpure, rdigit_digit _ h1, rdigit_digit _ h2,
    rdigit_nondigit _ h3]

theorem fp_rnum2_pad2 (n : Nat) (h : n ≤ 99) (rest : Str) :
    FirstParse rnum2 (pad2 n ++ rest) n rest := by
  by_cases hlt : n < 10
  · rw [pad2_eq_lt n hlt]
    refine fp_value (fp_bind (fp_digit _ (by decide) rfl)
      (fp_map _ (fp_digit rest (dchar_isDigit n (by omega)) rfl))) ?_
    rw [dchar_toNat n (by omega)]
    have h0 : ('0' : Char).toNat = 48 := rfl
    rw [h0]
    omega
  · rw [pad2_eq_ge n (by omega) h]
    refine fp_value (fp_bind (fp_digit _ (dchar_isDigit _ (by omega)) rfl)
      (fp_map _ (fp_digit rest (dchar_isDigit _ (by omega)) rfl))) ?_
    rw [dchar_toNat _ (by omega), dchar_toNat _ (by omega)]
    omega

theorem fp_rD12_pad2 (n : Nat) (h : n ≤ 99) (rest : Str) :
    FirstParse rD12 (pad2 n ++ rest) n rest :=
  fp_alt_left (fp_rnum2_pad2 n h rest)

theorem fp_rnum4_toDec (y : Nat) (h1 : 1000 ≤ y) (h2 : y ≤ 9999) (rest : Str) :
    FirstParse rnum4 (toDec y ++ rest) y rest := by
  rw [toDec_four y h1 h2]
  refine fp_value (fp_bind (fp_digit _ (dchar_isDigit _ (by omega)) rfl)
    (fp_bind (fp_digit _ (dchar_isDigit _ (by omega)) rfl)
      (fp_bind (fp_digit _ (dchar_isDigit _ (by omega)) rfl)
        (fp_map _ (fp_digit rest (dchar_isDigit _ (by omega)) rfl))))) ?_
  rw [dchar_toNat _ (by omega), dchar_toNat _ (by omega), dchar_toNat _ (by omega),
    dchar_toNat _ (by omega)]
  omega

theorem fp_rD13_toDec (n : Nat) (hn : n ≤ 999) {c : Char} (hc : c.isDigit = false)
    (rest : Str) : FirstParse rD13 (toDec n ++ c :: rest) n (c :: rest) := by
  by_cases h3 : 100 ≤ n
  · rw [toDec_three n h3 hn]
    refine fp_alt_left (fp_value (fp_bind (fp_digit _ (dchar_isDigit _ (by omega)) rfl)
      (fp_bind (fp_digit _ (dchar_isDigit _ (by omega)) rfl)
        (fp_map _ (fp_digit (c :: rest) (dchar_isDigit _ (by omega)) rfl)))) ?_)
    rw [dchar_toNat _ (by omega), dchar_toNat _ (by omega), dchar_toNat _ (by omega)]
    omega
  · by_cases h2 : 10 ≤ n
    · rw [toDec_two n h2 (by omega)]
      refine fp_alt_right (rnum3_fail3 rest (dchar_isDigit _ (by omega))
        (dchar_isDigit _ (by omega)) hc) ?_
      refine fp_alt_left (fp_value (fp_bind (fp_digit _ (dchar_isDigit _ (by omega)) rfl)
        (fp_map _ (fp_digit (c :: rest) (dchar_isDigit _ (by omega)) rfl))) ?_)
      rw [dchar_toNat _ (by omega), dchar_toNat _ (by omega)]
      omega
    · rw [toDec_lt n (by omega)]
      refine fp_alt_right (rnum3_fail2 rest (dchar_isDigit _ (by omega)) hc) ?_
      refine fp_alt_right (rnum2_fail2 rest (dchar_isDigit _ (by omega)) hc) ?_
      refine fp_value (fp_digit (c :: rest) (dchar_isDigit _ (by omega)) rfl) ?_
      rw [dchar_toNat _ (by omega)]
      omega

theorem fp_time_entry (h mi s ms : Nat) (hh : h ≤ 99) (hmi : mi ≤ 99) (hs : s ≤ 99)
    (hms : ms ≤ 999) (rest : Str) :
    FirstParse (rTimeGroup ':')
      (pad2 h ++ ':' :: (pad2 mi ++ ':' :: (pad2 s ++ '.' :: (toDec ms ++ ']' :: rest))))
      (h, mi, s, ms) (']' :: rest) := by
  unfold rTimeGroup
  exact fp_bind (fp_rD12_pad2 h hh _) (fp_bind (fp_char ':' _)
    (fp_bind (fp_rD12_pad2 mi hmi _) (fp_bind (fp_char ':' _)
      (fp_bind (fp_rD12_pad2 s hs _) (fp_bind (fp_any '.' _)
        (fp_map _ (fp_rD13_toDec ms hms (by decide) rest)))))))

theorem matchCleanUp_of_fp {dd td : Char} {s rest : Str} {caps : Captures}
    (hfp : FirstParse (cleanupPattern dd td) s caps rest) :
    matchCleanUp dd td s = some caps := by
  obtain ⟨t, ht⟩ := hfp
  simp [matchCleanUp, ht]

/-- On a formatted entry line (default delimiters), the clean-up regex
captures exactly the rendered fields. -/
theorem matchCleanUp_entryLine (m : Str) (dp : JsDate)
    (hday : dp.day ≤ 99) (hmon : dp.monthIndex + 1 ≤ 99) (hh : dp.hours ≤ 99)
    (hmi : dp.minutes ≤ 99) (hs : dp.seconds ≤ 99) (hms : dp.ms ≤ 999)
    (hy1 : 1000 ≤ dp.year) (hy2 : dp.year ≤ 9999) :
    matchCleanUp '/' ':' (entryLine m dp)
      = some (Captures.mk dp.day (dp.monthIndex + 1) dp.year
          (some (dp.hours, dp.minutes, dp.seconds, dp.ms))) := by
  have hfp : FirstParse (cleanupPattern '/' ':') (entryLine m dp)
      (Captures.mk dp.day (dp.monthIndex + 1) dp.year
        (some (dp.hours, dp.minutes, dp.seconds, dp.ms)))
      (']' :: ' ' :: '-' :: ' ' :: m) := by
    unfold entryLine cleanupPattern
    exact fp_bind (fp_opt (fp_char '[' _)) (fp_bind (fp_rD12_pad2 _ hday _)
      (fp_bind (fp_char '/' _) (fp_bind (fp_rD12_pad2 _ hmon _)
        (fp_bind (fp_char '/' _) (fp_bind (fp_rnum4_toDec _ hy1 hy2 _)
          (fp_bind (fp_opt (fp_sat _ (by decide)))
            (fp_map _ (fp_opt (fp_time_entry _ _ _ _ hh hmi hs hms _)))))))))
  exact matchCleanUp_of_fp hfp

/-! ### Helper lemmas about the state machine -/
theorem runQueue_nil (env : Env) (cfg : LoggerCfg) (file : Option Str) :
    runQueue env cfg file [] = (file, []) := rfl

theorem runQueue_cons (env : Env) (cfg : LoggerCfg) (file : Option Str) (t : Task)
    (ts : List Task) :
    runQueue env cfg file (t :: ts)
      = ((runQueue env cfg (runTask env cfg file t).1 ts).1,
         (runTask env cfg file t).2 :: (runQueue env cfg (runTask env cfg file t).1 ts).2) :=
  rfl

theorem runQueue_append (env : Env) (cfg : LoggerCfg) (ts1 : List Task) :
    ∀ (file : Option Str) (ts2 : List Task),
      runQueue env cfg file (ts1 ++ ts2)
        = ((runQueue env cfg (runQueue env cfg file ts1).1 ts2).1,
           (runQueue env cfg file ts1).2
             ++ (runQueue env cfg (runQueue env cfg file ts1).1 ts2).2) := by
  induction ts1 with
  | nil => intro file ts2; simp [runQueue_nil]
  | cons t ts ih =>
    intro file ts2
    rw [List.cons_append, runQueue_cons, runQueue_cons, ih]
    simp

/-- A failing task never modifies the file: `log` fails before/without
writing, `get_logs` never writes, and `clean_up` can only fail on the read. -/
theorem runTask_err_file (env : Env) (cfg : LoggerCfg) (file : Option Str) :
    ∀ (t : Task) (e : JsError),
      (runTask env cfg file t).2 = TaskOutput.err e → (runTask env cfg file t).1 = file := by
  intro t e h
  cases t with
  | log line =>
    simp only [runTask] at h ⊢
    cases hw : writeFileM cfg.flag file line with
    | ok f2 => simp [hw] at h
    | error e2 => rfl
  | getLogs d c =>
    simp only [runTask] at h ⊢
    cases hg : getLogData file with
    | ok logs => simp [hg] at h
    | error e2 => rfl
  | cleanUp =>
    simp only [runTask] at h ⊢
    cases hg : getLogData file with
    | error e2 => rfl
    | ok logs => simp [hg, writeFileM] at h

theorem runTask_getLogs_all (env : Env) (cfg : LoggerCfg) (s : Str) :
    runTask env cfg (some s) (Task.getLogs none none)
      = (some s, TaskOutput.logs (splitEntries s)) := by
  simp [runTask, getLogData, getLogsCore, optTruthy]

theorem runTask_cleanUp_some (env : Env) (cfg : LoggerCfg) (s : Str) :
    runTask env cfg (some s) Task.cleanUp
      = (some (rejoin (cleanedEntries env cfg.maxAge cfg.dd cfg.td s)), TaskOutput.done) := by
  simp [runTask, getLogData, writeFileM, cleanedEntries]

theorem runTask_cleanUp_none (env : Env) (cfg : LoggerCfg) :
    runTask env cfg none Task.cleanUp = (none, TaskOutput.err JsError.splitTypeError) := rfl

theorem cleanupPattern_nil (dd td : Char) : cleanupPattern dd td [] = [] := rfl

theorem matchCleanUp_nil (dd td : Char) : matchCleanUp dd td [] = none := rfl

/-- Retention boundary semantics of the `clean_up` filter: an entry whose
timestamp matched is kept iff its age is at most `maxAge` seconds (the
boundary age `maxAge*1000` ms is kept, strictly older is dropped). -/
theorem keepLog_iff_caps (env : Env) (maxAge : Nat) (dd td : Char) (log : Str)
    (caps : Captures) (h : matchCleanUp dd td log = some caps) :
    keepLog env maxAge dd td log = true
      ↔ env.now - capsMillis env caps ≤ (maxAge : Int) * 1000 := by
  have hne : log ≠ [] := by
    intro he
    subst he
    rw [matchCleanUp_nil] at h
    exact Option.noConfusion h
  have hemp : log.isEmpty = false := by
    cases log with
    | nil => exact absurd rfl hne
    | cons c cs => rfl
  unfold keepLog
  rw [hemp]
  simp only [Bool.false_eq_true, if_false, h]
  by_cases hage : env.now - capsMillis env caps > (maxAge : Int) * 1000
  · rw [if_pos hage]
    constructor
    · intro hfalse; exact absurd hfalse (by simp)
    · intro hle; omega
  · rw [if_neg hage]
    constructor
    · intro _; omega
    · intro _; rfl

theorem keepLog_none (env : Env) (maxAge : Nat) (dd td : Char) (log : Str)
    (h : matchCleanUp dd td log = none) : keepLog env maxAge dd td log = false := by
  unfold keepLog
  by_cases he : log.isEmpty
  · rw [he]; simp
  · rw [(by simpa using he : log.isEmpty = false)]
    simp only [Bool.false_eq_true, if_false, h]

/-- Sequential append of formatted log tasks: file contents accumulate the
blocks in submission order and every append succeeds (flag 'a'). -/
theorem runQueue_logTasks (env : Env) (cfg : LoggerCfg) (hflag : cfg.flag = Flag.a)
    (hauto : cfg.autoFormat = true) :
    ∀ (ps : List (Str × JsDate)) (acc : Str),
      runQueue env cfg (some acc) (logTasks cfg ps)
        = (some (acc ++ (ps.map (fun p => blockOf (entryLine p.1 p.2))).flatten),
           ps.map (fun _ => TaskOutput.done)) := by
  intro ps
  induction ps with
  | nil => intro acc; simp [logTasks, runQueue_nil]
  | cons p rest ih =>
    intro acc
    simp only [logTasks, List.map_cons] at ih ⊢
    rw [runQueue_cons]
    have hsub : logSubmit cfg.autoFormat false p.1 p.2 = Task.log (format p.1 p.2) := by
      simp [logSubmit, hauto]
    rw [hsub]
    have hrun : runTask env cfg (some acc) (Task.log (format p.1 p.2))
        = (some (acc ++ format p.1 p.2), TaskOutput.done) := by
      simp [runTask, writeFileM, hflag]
    rw [hrun, ih (acc ++ format p.1 p.2)]
    simp [format_eq_block, List.flatten_cons, List.append_assoc]

theorem logTasks_cons (cfg : LoggerCfg) (p : Str × JsDate) (rest : List (Str × JsDate)) :
    logTasks cfg (p :: rest) = logSubmit cfg.autoFormat false p.1 p.2 :: logTasks cfg rest := rfl

theorem runQueue_length (env : Env) (cfg : LoggerCfg) :
    ∀ (file : Option Str) (ts : List Task),
      ((runQueue env cfg file ts).2).length = ts.length := by
  intro file ts
  induction ts generalizing file with
  | nil => rfl
  | cons t ts ih =>
    rw [runQueue_cons]
    simp [ih]

/-- On a nonempty entry, with at least one truthy filter, the `get_logs`
filter callback is the OR of the two substring tests. -/
theorem queryKeep_eq (content date : Option Str) (e : Str) (hne : e.isEmpty = false)
    (h : (optTruthy content || optTruthy date) = true) :
    queryKeep content date e
      = ((optTruthy content && hasSub e (content.getD []))
          || (optTruthy date && hasSub e (date.getD []))) := by
  unfold queryKeep
  rw [hne]
  simp only [Bool.false_eq_true, if_false]
  have hboth : (!optTruthy content && !optTruthy date) = false := by
    cases hc : optTruthy content <;> cases hd : optTruthy date <;> simp_all
  rw [hboth]
  simp only [Bool.false_eq_true, if_false]
  cases hc : optTruthy content <;> cases hd : optTruthy date <;>
    cases hsc : hasSub e (content.getD []) <;> cases hsd : hasSub e (date.getD []) <;>
      simp_all

/-- C5: the claim states that `#format` renders the timestamp with the
store's CONFIGURED date and time delimiters.  In the code the template
string hard-codes '/' and ':' (logger.js line 49): `format` coincides with
the spec formatter at the default delimiters for every message and date,
and on a concrete input it differs from the spec formatter instantiated at
the configured delimiters '-', '.'. -/
theorem c5_format_hardcodes_delimiters :
    (∀ (m : Str) (d : JsDate), format m d = specFormatLine '/' ':' m d) ∧
      format ("x".data) demoDate ≠ specFormatLine '-' '.' ("x".data) demoDate := by
  constructor
  · intro m d
    rfl
  · decide

/-- C9: compaction is idempotent: running `clean_up` twice against the same
environment (same `Date.now()`) with no writes in between leaves the file
exactly as after the first run, for every initial file state, retention
setting and delimiter configuration. -/
theorem c9_cleanUp_idempotent (env : Env) (cfg : LoggerCfg) (file : Option Str) :
    (runTask env cfg (runTask env cfg file Task.cleanUp).1 Task.cleanUp).1
      = (runTask env cfg file Task.cleanUp).1 := by
  cases file with
  | none => rfl
  | some s =>
    rw [runTask_cleanUp_some, runTask_cleanUp_some]
    simp only
    have hprops : ∀ L ∈ cleanedEntries env cfg.maxAge cfg.dd cfg.td s, L ≠ [] ∧ '\n' ∉ L :=
      fun L hL => splitEntries_no_nl s L (List.mem_of_mem_filter hL)
    have h1 : cleanedEntries env cfg.maxAge cfg.dd cfg.td
        (rejoin (cleanedEntries env cfg.maxAge cfg.dd cfg.td s))
        = cleanedEntries env cfg.maxAge cfg.dd cfg.td s := by
      show (splitEntries (rejoin (cleanedEntries env cfg.maxAge cfg.dd cfg.td s))).filter _
        = cleanedEntries env cfg.maxAge cfg.dd cfg.td s
      rw [splitEntries_rejoin _ hprops]
      show ((splitEntries s).filter _).filter _ = _
      rw [filter_idem]
      rfl
    rw [h1]

/-- C4: during compaction, an entry whose embedded timestamp parses (with
the configured delimiters) is retained iff it is an entry of the file and
its age `now - entryTimestamp` is at most `retentionSeconds * 1000`
milliseconds — the boundary age is retained, strictly greater is dropped. -/
theorem c4_retention_boundary (env : Env) (maxAge : Nat) (dd td : Char) (s e : Str)
    (caps : Captures) (h : matchCleanUp dd td e = some caps) :
    e ∈ cleanedEntries env maxAge dd td s
      ↔ e ∈ splitEntries s ∧ env.now - capsMillis env caps ≤ (maxAge : Int) * 1000 := by
  unfold cleanedEntries
  rw [List.mem_filter, keepLog_iff_caps env maxAge dd td e caps h]

/-- Witness for C4 at the spec's own example: with retention 150 s and
entries aged 200 s, 100 s and 0 s, the 100 s-old entry is retained and the
200 s-old entry is dropped. -/
theorem c4_retention_boundary_witness :
    matchCleanUp '/' ':' (("[01/01/2026 00:03:20.0] - mid").data)
        = some (Captures.mk 1 1 2026 (some (0, 3, 20, 0))) ∧
      (("[01/01/2026 00:03:20.0] - mid").data) ∈ cleanedEntries demoEnv 150 '/' ':' witnessFile ∧
      (("[01/01/2026 00:01:40.0] - old").data) ∉ cleanedEntries demoEnv 150 '/' ':' witnessFile :=
  ⟨by decide,
   (c4_retention_boundary demoEnv 150 '/' ':' witnessFile (("[01/01/2026 00:03:20.0] - mid").data)
      (Captures.mk 1 1 2026 (some (0, 3, 20, 0))) (by decide)).mpr (by decide),
   fun hmem =>
     absurd ((c4_retention_boundary demoEnv 150 '/' ':' witnessFile
        (("[01/01/2026 00:01:40.0] - old").data)
        (Captures.mk 1 1 2026 (some (0, 1, 40, 0))) (by decide)).mp hmem).2 (by decide)⟩

/-- C7: during compaction, every entry whose embedded timestamp does not
match the clean-up regex (with the configured delimiters) is dropped, for
every file content, retention setting and environment. -/
theorem c7_unparseable_dropped (env : Env) (maxAge : Nat) (dd td : Char) (s e : Str)
    (h : matchCleanUp dd td e = none) :
    e ∉ cleanedEntries env maxAge dd td s := by
  intro hmem
  unfold cleanedEntries at hmem
  rw [List.mem_filter, keepLog_none env maxAge dd td e h] at hmem
  simp at hmem

/-- Witness for C7: a timestamp-less entry present in the file is not
retained. -/
theorem c7_unparseable_dropped_witness :
    matchCleanUp '/' ':' (("garbage").data) = none ∧
      (("garbage").data) ∉ cleanedEntries demoEnv 150 '/' ':' (("\ngarbage\n").data) :=
  ⟨by decide,
   c7_unparseable_dropped demoEnv 150 '/' ':' (("\ngarbage\n").data) (("garbage").data)
     (by decide)⟩

/-- C3: with no truthy filter the query resolves with all entries
unchanged; with at least one truthy filter an entry is kept iff it contains
the content filter substring OR the date filter substring (the result is
the order-preserving sublist of matching entries). -/
theorem c3_filter_or_semantics (env : Env) (cfg : LoggerCfg) (s : Str)
    (content date : Option Str) :
    ((optTruthy content || optTruthy date) = false →
       (runTask env cfg (some s) (Task.getLogs date content)).2
         = TaskOutput.logs (splitEntries s)) ∧
    ((optTruthy content || optTruthy date) = true →
       (runTask env cfg (some s) (Task.getLogs date content)).2
           = TaskOutput.logs ((splitEntries s).filter (fun e =>
               (optTruthy content && hasSub e (content.getD []))
                 || (optTruthy date && hasSub e (date.getD [])))) ∧
         ((splitEntries s).filter (fun e =>
             (optTruthy content && hasSub e (content.getD []))
               || (optTruthy date && hasSub e (date.getD [])))).Sublist (splitEntries s)) := by
  constructor
  · intro h
    have hc : optTruthy content = false := by
      cases hcv : optTruthy content <;> simp_all
    have hd : optTruthy date = false := by
      cases hdv : optTruthy date <;> simp_all
    simp [runTask, getLogData, getLogsCore, hc, hd]
  · intro h
    refine ⟨?_, List.filter_sublist _⟩
    have hcond : (!optTruthy content && !optTruthy date) = false := by
      cases hcv : optTruthy content <;> cases hdv : optTruthy date <;> simp_all
    have hcore : getLogsCore content date (splitEntries s)
        = (splitEntries s).filter (queryKeep content date) := by
      unfold getLogsCore
      rw [hcond]
      simp
    have hcongr : (splitEntries s).filter (queryKeep content date)
        = (splitEntries s).filter (fun e =>
            (optTruthy content && hasSub e (content.getD []))
              || (optTruthy date && hasSub e (date.getD []))) := by
      refine List.filter_congr ?_
      intro e he
      have hne : e.isEmpty = false := by
        have := (splitEntries_no_nl s e he).1
        cases e with
        | nil => exact absurd rfl this
        | cons c cs => rfl
      exact queryKeep_eq content date e hne h
    simp [runTask, getLogData, hcore, hcongr]

/-- Witness for C3: a content filter keeps exactly the entries containing
the substring, in order. -/
theorem c3_filter_or_semantics_witness :
    (optTruthy (some (("app").data)) || optTruthy (none : Option Str)) = true ∧
    (runTask demoEnv defaultCfg (some (("\napple\n\nbanana\n\npineapple\n").data))
        (Task.getLogs none (some (("app").data)))).2
      = TaskOutput.logs [("apple").data, ("pineapple").data] :=
  ⟨by decide, by
    rw [((c3_filter_or_semantics demoEnv defaultCfg (("\napple\n\nbanana\n\npineapple\n").data)
      (some (("app").data)) none).2 (by decide)).1]
    decide⟩

/-- C2 (amended): `getLogs` date validation is the anchored PREFIX test of
`#date_regex` (no end anchor): when a truthy date fails the test the call
rejects synchronously and the task chain is left untouched (no file access);
otherwise — including dates that merely BEGIN with the pattern — a query
task is appended to the chain. -/
theorem c2_validation_prefix_test (cfg : LoggerCfg) (chain : List Task)
    (date content : Option Str) :
    ((optTruthy date && !dateRegexTest cfg.dd cfg.td (date.getD [])) = true →
       getLogsSubmit cfg chain date content
         = (chain, some (Rejection.invalidDate (date.getD [])))) ∧
    ((optTruthy date && !dateRegexTest cfg.dd cfg.td (date.getD [])) = false →
       getLogsSubmit cfg chain date content
         = (chain ++ [Task.getLogs date content], none)) := by
  constructor <;> intro h <;> simp [getLogsSubmit, h]

/-- Counterexample for C2 as stated: "31/12/2099x" does NOT conform to the
spec's pattern `DD/MM/YYYY[ HH:MM:SS.mmm]` (trailing garbage), yet
validation passes and a query task IS enqueued — the regex has no end
anchor, so only a conforming prefix is required. -/
theorem c2_counterexample :
    specDateConforms '/' ':' (("31/12/2099x").data) = false ∧
      getLogsSubmit defaultCfg [] (some (("31/12/2099x").data)) none
        = ([Task.getLogs (some (("31/12/2099x").data)) none], none) :=
  ⟨by decide, by decide⟩

/-- Witness for C2: a non-matching date ("31-12-2099" against delimiter '/')
rejects with the chain untouched; a matching date enqueues the query task. -/
theorem c2_validation_prefix_test_witness :
    (optTruthy (some (("31-12-2099").data))
        && !dateRegexTest '/' ':' (("31-12-2099").data)) = true ∧
    getLogsSubmit defaultCfg [] (some (("31-12-2099").data)) none
      = ([], some (Rejection.invalidDate (("31-12-2099").data))) ∧
    getLogsSubmit defaultCfg [] (some (("31/12/2099").data)) none
      = ([Task.getLogs (some (("31/12/2099").data)) none], none) :=
  ⟨by decide,
   (c2_validation_prefix_test defaultCfg [] (some (("31-12-2099").data)) none).1 (by decide),
   (c2_validation_prefix_test defaultCfg [] (some (("31/12/2099").data)) none).2 (by decide)⟩

/-- C10: once the date argument passes validation (or is absent), the
promise returned by `getLogs` always RESOLVES — never rejects — for every
file state and filter combination; when the backing file is absent the
resolved value is the error produced from the failed read (the TypeError
raised by calling `.split` on the caught read error), not a rejection. -/
theorem c10_getLogs_always_resolves (env : Env) (cfg : LoggerCfg) (file : Option Str)
    (date content : Option Str)
    (hv : optTruthy date = false ∨ dateRegexTest cfg.dd cfg.td (date.getD []) = true) :
    (∃ o, getLogsOutcome env cfg file date content = PromiseOutcome.resolved o) ∧
    (file = none →
       getLogsOutcome env cfg file date content
         = PromiseOutcome.resolved (TaskOutput.err JsError.splitTypeError)) := by
  have hcond : (optTruthy date && !dateRegexTest cfg.dd cfg.td (date.getD [])) = false := by
    rcases hv with h | h <;> simp [h]
  constructor
  · refine ⟨(runTask env cfg file (Task.getLogs date content)).2, ?_⟩
    simp [getLogsOutcome, hcond]
  · intro hf
    subst hf
    simp [getLogsOutcome, hcond, runTask, getLogData]

/-- Witness for C10: with no date filter and an absent file, the promise
resolves with the error value. -/
theorem c10_getLogs_always_resolves_witness :
    (optTruthy (none : Option Str) = false
        ∨ dateRegexTest '/' ':' ((none : Option Str).getD []) = true) ∧
    getLogsOutcome demoEnv defaultCfg none none none
      = PromiseOutcome.resolved (TaskOutput.err JsError.splitTypeError) :=
  ⟨Or.inl rfl,
   (c10_getLogs_always_resolves demoEnv defaultCfg none none none (Or.inl rfl)).2 rfl⟩

/-- C6: a task whose handler fails delivers its error only to its own
chain step, leaves the file unchanged, and every subsequently queued task
still runs and produces exactly the results it would have produced had the
failing task been absent; the queue keeps draining (one output per task). -/
theorem c6_error_isolation (env : Env) (cfg : LoggerCfg) (file : Option Str) (t : Task)
    (e : JsError) (post : List Task)
    (h : (runTask env cfg file t).2 = TaskOutput.err e) :
    runQueue env cfg file (t :: post)
        = ((runQueue env cfg file post).1,
           TaskOutput.err e :: (runQueue env cfg file post).2) ∧
      (runQueue env cfg file (t :: post)).2.length = post.length + 1 := by
  have hfile := runTask_err_file env cfg file t e h
  constructor
  · rw [runQueue_cons, hfile, h]
  · rw [runQueue_cons, hfile, h]
    simp [runQueue_length]

/-- Witness for C6: an exclusive-append ('ax') write against an existing
file fails, and the following query still runs as if the failed append had
not been queued. -/
theorem c6_error_isolation_witness :
    (runTask demoEnv cfgAx (some (("y").data)) (Task.log (("x").data))).2
        = TaskOutput.err (JsError.logWrapped JsError.fileExists) ∧
    runQueue demoEnv cfgAx (some (("y").data))
        [Task.log (("x").data), Task.getLogs none none]
      = ((runQueue demoEnv cfgAx (some (("y").data)) [Task.getLogs none none]).1,
         TaskOutput.err (JsError.logWrapped JsError.fileExists)
           :: (runQueue demoEnv cfgAx (some (("y").data)) [Task.getLogs none none]).2) :=
  ⟨by decide,
   (c6_error_isolation demoEnv cfgAx (some (("y").data)) (Task.log (("x").data))
      (JsError.logWrapped JsError.fileExists) [Task.getLogs none none] (by decide)).1⟩

/-- C1 (amended): for a store in append mode with `auto_format` on, starting
from an empty or absent file, submitting `log(m1) … log(mn)` and then an
unfiltered `getLogs` yields the file holding the formatted blocks in exact
submission order and the query resolving with exactly the formatted entries
for `m1 … mn` in that order (messages newline-free, as an entry is a line). -/
theorem c1_order_append_mode (env : Env) (cfg : LoggerCfg) (ps : List (Str × JsDate))
    (file : Option Str) (hflag : cfg.flag = Flag.a) (hauto : cfg.autoFormat = true)
    (hfile : file = some [] ∨ (file = none ∧ ps ≠ []))
    (hmsg : ∀ p ∈ ps, '\n' ∉ p.1) :
    runQueue env cfg file (logTasks cfg ps ++ [Task.getLogs none none])
      = (some ((ps.map (fun p => blockOf (entryLine p.1 p.2))).flatten),
         ps.map (fun _ => TaskOutput.done)
           ++ [TaskOutput.logs (ps.map (fun p => entryLine p.1 p.2))]) := by
  have hprops : ∀ L ∈ ps.map (fun p => entryLine p.1 p.2), L ≠ [] ∧ '\n' ∉ L := by
    intro L hL
    simp only [List.mem_map] at hL
    obtain ⟨p, hp, rfl⟩ := hL
    exact ⟨entryLine_ne_nil _ _, entryLine_no_nl _ _ (hmsg p hp)⟩
  have hsplit : splitEntries ((ps.map (fun p => blockOf (entryLine p.1 p.2))).flatten)
      = ps.map (fun p => entryLine p.1 p.2) := by
    have hmm : ps.map (fun p => blockOf (entryLine p.1 p.2))
        = (ps.map (fun p => entryLine p.1 p.2)).map blockOf := by
      rw [List.map_map]
      rfl
    rw [hmm]
    exact splitEntries_flatten_blocks _ hprops
  rcases hfile with hfile | ⟨hfile, hne⟩
  · subst hfile
    rw [runQueue_append env cfg (logTasks cfg ps) (some []) [Task.getLogs none none]]
    rw [runQueue_logTasks env cfg hflag hauto ps []]
    simp only [List.nil_append]
    rw [runQueue_cons, runTask_getLogs_all, runQueue_nil, hsplit]
  · subst hfile
    cases ps with
    | nil => exact absurd rfl hne
    | cons p rest =>
      rw [logTasks_cons, List.cons_append, runQueue_cons]
      have hsub : logSubmit cfg.autoFormat false p.1 p.2 = Task.log (format p.1 p.2) := by
        simp [logSubmit, hauto]
      rw [hsub]
      have hrun : runTask env cfg none (Task.log (format p.1 p.2))
          = (some (format p.1 p.2), TaskOutput.done) := by
        simp [runTask, writeFileM, hflag]
      rw [hrun]
      rw [runQueue_append env cfg (logTasks cfg rest) (some (format p.1 p.2))
        [Task.getLogs none none]]
      rw [runQueue_logTasks env cfg hflag hauto rest (format p.1 p.2)]
      have hacc : format p.1 p.2
            ++ (rest.map (fun q => blockOf (entryLine q.1 q.2))).flatten
          = (((p :: rest).map (fun q => blockOf (entryLine q.1 q.2)))).flatten := by
        rw [List.map_cons, List.flatten_cons, format_eq_block]
      rw [hacc]
      rw [runQueue_cons, runTask_getLogs_all, runQueue_nil, hsplit]
      simp

/-- Witness for C1 at two concrete messages. -/
theorem c1_order_append_mode_witness :
    (∀ p ∈ [((("a").data), demoDate), ((("b").data), demoDate)], '\n' ∉ p.1) ∧
    runQueue demoEnv defaultCfg (some [])
        (logTasks defaultCfg [((("a").data), demoDate), ((("b").data), demoDate)]
          ++ [Task.getLogs none none])
      = (some (([((("a").data), demoDate), ((("b").data), demoDate)].map
            (fun p => blockOf (entryLine p.1 p.2))).flatten),
         [((("a").data), demoDate), ((("b").data), demoDate)].map (fun _ => TaskOutput.done)
           ++ [TaskOutput.logs ([((("a").data), demoDate), ((("b").data), demoDate)].map
                (fun p => entryLine p.1 p.2))]) :=
  ⟨by decide,
   c1_order_append_mode demoEnv defaultCfg
     [((("a").data), demoDate), ((("b").data), demoDate)] (some []) rfl rfl
     (Or.inl rfl) (by decide)⟩

/-- Counterexample for C1 as stated: with `auto_format` off, raw texts are
appended verbatim with no separator, so `log("a"); log("b")` followed by an
unfiltered `getLogs` resolves with the single entry "ab" — not with the two
entries for "a" and "b". -/
theorem c1_counterexample :
    runQueue demoEnv cfgNoFormat (some [])
        (logTasks cfgNoFormat [((("a").data), demoDate), ((("b").data), demoDate)]
          ++ [Task.getLogs none none])
      = (some (("ab").data),
         [TaskOutput.done, TaskOutput.done, TaskOutput.logs [(("ab").data)]]) ∧
    [(("ab").data)] ≠ [(("a").data), (("b").data)] :=
  ⟨by decide, by decide⟩

/-- C8 (amended): for a store with the DEFAULT delimiters '/' and ':' in
append mode with `auto_format` on, sufficient retention (the entry's age is
within the window) and a date in normal ranges, the sequence
`log(m); getLogs(); cleanUp(); getLogs()` yields the same formatted entry
for `m` from both queries, byte for byte, and the rewritten file equals the
originally appended block. -/
theorem c8_roundtrip_default_delims (env : Env) (cfg : LoggerCfg) (m : Str) (dp : JsDate)
    (hflag : cfg.flag = Flag.a) (hauto : cfg.autoFormat = true)
    (hdd : cfg.dd = '/') (htd : cfg.td = ':')
    (hm : '\n' ∉ m)
    (hday : dp.day ≤ 99) (hmon : dp.monthIndex + 1 ≤ 99) (hh : dp.hours ≤ 99)
    (hmi : dp.minutes ≤ 99) (hs : dp.seconds ≤ 99) (hms : dp.ms ≤ 999)
    (hy1 : 1000 ≤ dp.year) (hy2 : dp.year ≤ 9999)
    (hret : env.now - capsMillis env (Captures.mk dp.day (dp.monthIndex + 1) dp.year
        (some (dp.hours, dp.minutes, dp.seconds, dp.ms))) ≤ (cfg.maxAge : Int) * 1000) :
    runQueue env cfg (some [])
        [logSubmit cfg.autoFormat false m dp, Task.getLogs none none, Task.cleanUp,
         Task.getLogs none none]
      = (some (blockOf (entryLine m dp)),
         [TaskOutput.done, TaskOutput.logs [entryLine m dp], TaskOutput.done,
          TaskOutput.logs [entryLine m dp]]) := by
  have hsub : logSubmit cfg.autoFormat false m dp = Task.log (format m dp) := by
    simp [logSubmit, hauto]
  have hrun1 : runTask env cfg (some []) (Task.log (format m dp))
      = (some (format m dp), TaskOutput.done) := by
    simp [runTask, writeFileM, hflag]
  have hL : splitEntries (blockOf (entryLine m dp)) = [entryLine m dp] := by
    have h1 : (List.map blockOf [entryLine m dp]).flatten = blockOf (entryLine m dp) := by
      simp
    rw [← h1]
    refine splitEntries_flatten_blocks [entryLine m dp] ?_
    intro L hLmem
    simp only [List.mem_singleton] at hLmem
    subst hLmem
    exact ⟨entryLine_ne_nil _ _, entryLine_no_nl _ _ hm⟩
  have hkeep : keepLog env cfg.maxAge cfg.dd cfg.td (entryLine m dp) = true := by
    rw [hdd, htd]
    exact (keepLog_iff_caps env cfg.maxAge '/' ':' _ _
      (matchCleanUp_entryLine m dp hday hmon hh hmi hs hms hy1 hy2)).mpr hret
  have hclean : cleanedEntries env cfg.maxAge cfg.dd cfg.td (blockOf (entryLine m dp))
      = [entryLine m dp] := by
    unfold cleanedEntries
    rw [hL]
    simp [hkeep]
  have hrej : rejoin [entryLine m dp] = blockOf (entryLine m dp) := by
    rw [rejoin_eq_blocks]
    simp
  rw [hsub, runQueue_cons, hrun1, format_eq_block]
  rw [runQueue_cons, runTask_getLogs_all, hL]
  rw [runQueue_cons, runTask_cleanUp_some, hclean, hrej]
  rw [runQueue_cons, runTask_getLogs_all, hL, runQueue_nil]

/-- Counterexample for C8 as stated: a store configured with date delimiter
'-' (huge retention) loses its own formatted entry across `cleanUp` because
`#format` wrote '/' while the clean-up regex expects '-': the first query
returns the entry, the second returns nothing. -/
theorem c8_counterexample :
    runQueue demoEnv cfgDash (some [])
        [logSubmit cfgDash.autoFormat false (("x").data) demoDate,
         Task.getLogs none none, Task.cleanUp, Task.getLogs none none]
      = (some [],
         [TaskOutput.done, TaskOutput.logs [entryLine (("x").data) demoDate],
          TaskOutput.done, TaskOutput.logs []]) ∧
    TaskOutput.logs [entryLine (("x").data) demoDate] ≠ TaskOutput.logs ([] : List Str) :=
  ⟨by decide, by decide⟩

/-- Witness for C8 at a concrete message, date and environment. -/
theorem c8_roundtrip_default_delims_witness :
    ('\n' ∉ (("x").data)) ∧
    runQueue demoEnv defaultCfg (some [])
        [logSubmit defaultCfg.autoFormat false (("x").data) demoDate,
         Task.getLogs none none, Task.cleanUp, Task.getLogs none none]
      = (some (blockOf (entryLine (("x").data) demoDate)),
         [TaskOutput.done, TaskOutput.logs [entryLine (("x").data) demoDate],
          TaskOutput.done, TaskOutput.logs [entryLine (("x").data) demoDate]]) :=
  ⟨by decide,
   c8_roundtrip_default_delims demoEnv defaultCfg (("x").data) demoDate rfl rfl rfl rfl
     (by decide) (by decide) (by decide) (by decide) (by decide) (by decide) (by decide)
     (by decide) (by decide) (by decide)⟩

end Logger
